import Mathlib

set_option maxHeartbeats 1000000

/-!
Shallow embedding of the `Str` string class of `src/str.hpp` (Str v0.40).

The control block fields `m_data`, `m_size : 24`, `m_local_size : 8`,
`m_capacity : 24`, `m_owned : 1` are modelled explicitly; bit-field stores
truncate with `% 2^24` resp. `% 2^8`.  The active buffer is modelled as a
byte list (`localBytes` for the inline extension that physically follows
the object, `heapBytes` for a heap allocation), external memory as a
function `Nat → Nat` read through `std::string_view` style address/length
pairs, and the formatting facility by the exact rendered byte list (fmt's
`formatted_size` is its length, `format_to_n` writes a bounded prefix of
it).  A ghost allocator (`heapId`, `nextId`, `live`) tracks which heap
blocks are currently allocated, and `oob` records whether any store fell
outside the extent of the active allocation (or went through a pointer the
instance does not own).
-/

/-- Store into the 24-bit bit-fields `m_size` / `m_capacity`. -/
def bf24 (x : Nat) : Nat := x % 16777216

/-- Store into the 8-bit bit-field `m_local_size`. -/
def bf8 (x : Nat) : Nat := x % 256

/-- Byte standing for the indeterminate contents of a fresh malloc block. -/
def junkByte : Nat := 205

/-- Read `n` bytes of external memory starting at address `a`
(the bytes of a `std::string_view{(char*)a, n}`). -/
def readMem (mem : Nat → Nat) (a n : Nat) : List Nat :=
  (List.range n).map (fun i => mem (a + i))

/-- `memcpy` of `src` into `l` starting at offset `off`.  Bytes that fall
outside the extent of `l` are dropped here; callers record that event in
their `oob` flag. -/
def writeB (l : List Nat) (off : Nat) (src : List Nat) : List Nat :=
  match src with
  | [] => l
  | b :: rest => writeB (l.set off b) (off + 1) rest

/-- The bytes `strncpy` deposits when told to copy `src.length` bytes from a
source whose bytes are `src`: it copies up to and including the first NUL
byte and pads the rest with NUL bytes. -/
def strncpyBytes (src : List Nat) : List Nat :=
  (List.range src.length).map (fun i => if 0 ∈ src.take i then 0 else src.getD i 0)

/-- Where `m_data` currently points. -/
inductive Loc where
  | localBuf : Loc
  | heap : Loc
  | emptyBuf : Loc
  | ext (addr : Nat) : Loc
deriving DecidableEq

/-- The control block of `class Str` together with the buffers it governs
and the ghost allocator state. -/
structure Str where
  loc : Loc
  localBytes : List Nat
  heapBytes : List Nat
  size : Nat
  localSize : Nat
  capacity : Nat
  owned : Bool
  heapId : Nat
  nextId : Nat
  live : List Nat
  oob : Bool
deriving DecidableEq

/-- Contents of the static `Str::EmptyBuffer`, the literal `"\0NULL"`. -/
def emptyBufBytes : List Nat := [0, 78, 85, 76, 76, 0]

/-- `m_data[i]`: read one byte at offset `i` of the active buffer. -/
def Str.bufGet (mem : Nat → Nat) (s : Str) (i : Nat) : Nat :=
  match s.loc with
  | .localBuf => s.localBytes.getD i 0
  | .heap => s.heapBytes.getD i 0
  | .emptyBuf => emptyBufBytes.getD i 0
  | .ext a => mem (a + i)

/-- Extent in bytes of the active allocation when the instance may write
through `m_data` (0 for static or external memory). -/
def Str.extent (s : Str) : Nat :=
  match s.loc with
  | .localBuf => s.localBytes.length
  | .heap => s.heapBytes.length
  | _ => 0

/-- `memcpy(m_data + off, src, src.length)`.  A store that does not fall
entirely inside the active allocation, or that goes through static or
external memory, raises the `oob` flag. -/
def Str.bwrite (s : Str) (off : Nat) (src : List Nat) : Str :=
  if src = [] then s
  else
    match s.loc with
    | .localBuf =>
        { s with
          localBytes := writeB s.localBytes off src
          oob := s.oob || decide (s.localBytes.length < off + src.length) }
    | .heap =>
        { s with
          heapBytes := writeB s.heapBytes off src
          oob := s.oob || decide (s.heapBytes.length < off + src.length) }
    | _ => { s with oob := true }

/-- Single byte store `m_data[i] = b`. -/
def Str.bwrite1 (s : Str) (i b : Nat) : Str := s.bwrite i [b]

/-- The bit-field store `m_size = n` (callers pass the truncated value). -/
def Str.setSize (s : Str) (n : Nat) : Str := { s with size := n }

/-- Read `n` bytes of the active buffer starting at offset `off`. -/
def Str.readBuf (mem : Nat → Nat) (s : Str) (off n : Nat) : List Nat :=
  (List.range n).map (fun i => s.bufGet mem (off + i))

/-- `view()`, i.e. `std::string_view{m_data, m_size}`. -/
def Str.view (mem : Nat → Nat) (s : Str) : List Nat := s.readBuf mem 0 s.size

/-- `STR_MEMFREE(m_data)` on the ghost allocator: the current heap block
stops being live. -/
def freeCur (s : Str) : List Nat := s.live.filter (fun i => i ≠ s.heapId)

/-- The allocator state after the conditional release
`if (m_owned && !is_using_local_buf()) STR_MEMFREE(m_data);`. -/
def freeIfOwnedHeap (s : Str) : List Nat :=
  if s.owned = true ∧ s.loc ≠ Loc.localBuf then freeCur s else s.live

/-- `Str::Str()`: default constructor of the base class, pointing at the
shared read-only `EmptyBuffer`. -/
def Str.init : Str :=
  { loc := .emptyBuf, localBytes := [], heapBytes := [], size := 0, localSize := 0,
    capacity := 0, owned := false, heapId := 0, nextId := 0, live := [], oob := false }

/-- `Str::Str(int local_buf_size)`: protected constructor used by the
`StrN` variants.  `STR_ASSERT(local_buf_size <= 256)` is modelled by
`Option`; the store to the 8-bit field `m_local_size` truncates mod 256. -/
def Str.initLocal (n : Nat) : Option Str :=
  if n ≤ 256 then
    some (Str.bwrite1
      { loc := .localBuf, localBytes := List.replicate n junkByte, heapBytes := [],
        size := 0, localSize := bf8 n, capacity := bf24 n, owned := true,
        heapId := 0, nextId := 0, live := [], oob := false } 0 0)
  else none

/-- `Str::reserve(int new_capacity)`: grow, preserving current content. -/
def Str.reserve (mem : Nat → Nat) (new_capacity : Nat) (s : Str) : Str :=
  if new_capacity ≤ s.capacity then s
  else if new_capacity < s.localSize then
    let content := s.readBuf mem 0 s.size ++ [0]
    let s2 := Str.bwrite { s with loc := Loc.localBuf } 0 content
    { s2 with live := freeIfOwnedHeap s, capacity := bf24 s.localSize, owned := true }
  else
    let content := s.readBuf mem 0 s.size ++ [0]
    { s with
      loc := Loc.heap
      heapBytes := writeB (List.replicate new_capacity junkByte) 0 content
      live := s.nextId :: freeIfOwnedHeap s
      heapId := s.nextId
      nextId := s.nextId + 1
      capacity := bf24 new_capacity
      owned := true
      oob := s.oob || decide (new_capacity < s.size + 1) }

/-- `Str::reserve_discard(int new_capacity)`: grow, discarding content. -/
def Str.reserve_discard (new_capacity : Nat) (s : Str) : Str :=
  if s.owned = true ∧ new_capacity ≤ s.capacity then s
  else if new_capacity < s.localSize then
    { s with
      live := freeIfOwnedHeap s
      loc := Loc.localBuf
      capacity := bf24 s.localSize
      owned := true }
  else
    { s with
      live := s.nextId :: freeIfOwnedHeap s
      loc := Loc.heap
      heapBytes := List.replicate new_capacity junkByte
      heapId := s.nextId
      nextId := s.nextId + 1
      capacity := bf24 new_capacity
      owned := true }

/-- `Str::set(std::string_view src)` where the source view is `addr`/`len`
over external memory `mem`.  Note: the code copies `src.size() + 1` bytes
from the source (`memcpy(m_data, src.data(), buf_len)` with
`buf_len = src.size() + 1`), so it reads one byte past the end of the view. -/
def Str.set (mem : Nat → Nat) (addr len : Nat) (s : Str) : Str :=
  let s1 := s.reserve_discard (len + 1)
  let s2 := s1.bwrite 0 (readMem mem addr (len + 1))
  { s2 with owned := true, size := bf24 len }

/-- `Str::set_ref(std::string_view s)`: release an owned heap block, then
point at the external bytes without copying. -/
def Str.set_ref (addr len : Nat) (s : Str) : Str :=
  { s with
    live := freeIfOwnedHeap s
    loc := Loc.ext addr
    size := bf24 len
    capacity := bf24 len
    owned := false }

/-- `Str::ref(std::string_view s)`: construct a base `Str` and `set_ref` it. -/
def Str.refOf (addr len : Nat) : Str := Str.set_ref addr len Str.init

/-- `Str::append(std::string_view s)`: grow preserving content, copy the new
bytes at offset `m_size`, advance `m_size`, write the terminator, and
return the number of appended bytes. -/
def Str.append (mem : Nat → Nat) (addr len : Nat) (s : Str) : Str × Int :=
  let s1 := s.reserve mem (s.size + len + 1)
  let s2 := s1.bwrite s1.size (readMem mem addr len)
  let s3 := s2.setSize (bf24 (s2.size + len))
  let s4 := s3.bwrite1 s3.size 0
  (s4, (len : Int))

/-- `Str::append_nogrow(std::string_view s)`: fail with -1 when
`m_capacity < m_size + s.size() + 1`, otherwise copy with `strncpy`,
advance `m_size` and terminate. -/
def Str.append_nogrow (mem : Nat → Nat) (addr len : Nat) (s : Str) : Str × Int :=
  if s.capacity < s.size + len + 1 then (s, -1)
  else
    let to_copy := min len (s.capacity - s.size - 1)
    let s1 := s.bwrite s.size (strncpyBytes (readMem mem addr to_copy))
    let s2 := s1.setSize (bf24 (s1.size + to_copy))
    let s3 := s2.bwrite1 s2.size 0
    (s3, (to_copy : Int))

/-- `Str::setf(fmt, args...)` for a call whose exact rendered output is the
byte list `out` (`fmt::formatted_size` returns `out.length`).  Faithful to
the source: it conditionally grows, asserts ownership (`none` on failure),
renders at most `m_capacity` bytes at offset 0, and returns the length; it
neither updates `m_size` nor writes a terminator. -/
def Str.setf (out : List Nat) (s : Str) : Option (Str × Int) :=
  let len := out.length
  let s1 := if s.capacity < len + 1 then s.reserve_discard (len + 1) else s
  if s1.owned then
    some (s1.bwrite 0 (out.take s1.capacity), (len : Int))
  else none

/-- `Str::setf_nogrow(fmt, args...)`: the source body is identical to
`Str::setf`, including the call to `reserve_discard`. -/
def Str.setf_nogrow (out : List Nat) (s : Str) : Option (Str × Int) :=
  let len := out.length
  let s1 := if s.capacity < len + 1 then s.reserve_discard (len + 1) else s
  if s1.owned then
    some (s1.bwrite 0 (out.take s1.capacity), (len : Int))
  else none

/-- `Str::appendf(fmt, args...)` with rendered output `out`: grows only when
`m_capacity < len + 1`, renders up to `m_capacity` bytes starting at offset
`m_size`, then advances `m_size` by `len` and writes the terminator. -/
def Str.appendf (mem : Nat → Nat) (out : List Nat) (s : Str) : Option (Str × Int) :=
  let len := out.length
  let s1 := if s.capacity < len + 1 then s.reserve mem (len + 1) else s
  if s1.owned then
    let s2 := s1.bwrite s1.size (out.take s1.capacity)
    let s3 := s2.setSize (bf24 (s2.size + len))
    let s4 := s3.bwrite1 s3.size 0
    some (s4, (len : Int))
  else none

/-- `Str::appendf_nogrow(fmt, args...)` with rendered output `out`. -/
def Str.appendf_nogrow (out : List Nat) (s : Str) : Option (Str × Int) :=
  let len := out.length
  if s.capacity < len + 1 then some (s, -1)
  else if s.owned then
    let s2 := s.bwrite s.size (out.take s.capacity)
    let s3 := s2.setSize (bf24 (s2.size + len))
    let s4 := s3.bwrite1 s3.size 0
    some (s4, (len : Int))
  else none

/-- `Str::clear()`. -/
def Str.clear (s : Str) : Str :=
  let live2 := freeIfOwnedHeap s
  if s.localSize ≠ 0 then
    let s1 := Str.bwrite1 { s with live := live2, loc := Loc.localBuf } 0 0
    { s1 with capacity := bf24 s.localSize, owned := true, size := 0 }
  else
    { s with live := live2, loc := Loc.emptyBuf, capacity := 0, owned := false, size := 0 }

/-- `Str::shrink_to_fit()`: reallocate an owned heap block down to
`m_size + 1` bytes, copying content and terminator. -/
def Str.shrink_to_fit (mem : Nat → Nat) (s : Str) : Str :=
  if s.owned = false ∨ s.loc = Loc.localBuf then s
  else if s.capacity ≤ s.size + 1 then s
  else
    { s with
      heapBytes := s.readBuf mem 0 (s.size + 1)
      loc := Loc.heap
      live := s.nextId :: freeCur s
      heapId := s.nextId
      nextId := s.nextId + 1
      capacity := bf24 (s.size + 1) }

/-- The assertion `-m_size < i && i < m_size` of `operator[]`, evaluated
with the C++ conversions actually in force: `i` has type `size_t`, the
24-bit field `m_size` promotes to `int`, and `-m_size` then converts to
`size_t` as `2^64 - m_size` (mod `2^64`). -/
def idxAssert (sz i : Nat) : Bool :=
  decide ((18446744073709551616 - sz) % 18446744073709551616 < i) && decide (i < sz)

/-- `operator[](size_t i)`: `none` when `STR_ASSERT` fails.  Since `i` is
unsigned, the `i < 0` branch of `i + (i < 0 ? m_size : 0)` is dead and the
accessed offset is `i` itself. -/
def Str.opIndex (mem : Nat → Nat) (s : Str) (i : Nat) : Option Nat :=
  if idxAssert s.size i then some (s.bufGet mem i) else none

/-- Well-formedness of a reachable state: bit-field values in range, the
stored local size fits inside the physical inline extension, `m_capacity`
does not exceed the extent of the active allocation, and ownership implies
the data pointer is the inline extension or a heap block. -/
def WF (s : Str) : Prop :=
  s.size < 16777216 ∧ s.capacity < 16777216 ∧ s.localSize < 256 ∧
  s.localSize ≤ s.localBytes.length ∧
  (s.loc = Loc.localBuf → s.capacity ≤ s.localBytes.length) ∧
  (s.loc = Loc.heap → s.capacity ≤ s.heapBytes.length) ∧
  (s.owned = true → s.loc = Loc.localBuf ∨ s.loc = Loc.heap)

instance decWF (s : Str) : Decidable (WF s) := by
  unfold WF
  infer_instance

/-- A fresh `Str16` (an inline variant with a 16 byte local buffer). -/
def s16 : Str := (Str.initLocal 16).getD Str.init

/-- External memory holding the 10 byte string "aaaaaaaaaa" at address 0
(NUL terminated) and the 6 byte string "bbbbbb" at address 100. -/
def memAB : Nat → Nat := fun i =>
  if i < 10 then 97 else if 100 ≤ i ∧ i < 106 then 98 else 0

/-- A `Str16` holding the 10 bytes "aaaaaaaaaa" (the state of the
repository's own `test_append_nogrow`). -/
def sAA : Str := Str.set memAB 0 10 s16

/-- All-zero external memory. -/
def memZ : Nat → Nat := fun _ => 0

/-- External memory holding the bytes "ab" at addresses 0..1, followed by
the non-NUL byte 88 at address 2. -/
def mem5 : Nat → Nat := fun i => if i = 0 then 97 else if i = 1 then 98 else if i = 2 then 88 else 0

/-- External memory agreeing with `mem5` on addresses 0..1 (the two bytes of
the view "ab") but holding 0 at address 2. -/
def mem5z : Nat → Nat := fun i => if i = 0 then 97 else if i = 1 then 98 else 0

/-- A `Str16` put into the Reference state (pointing at external address 500,
length 0). -/
def sref : Str := Str.set_ref 500 0 s16

/-- External memory holding 15 of the byte 102 at addresses 0..14, NUL after. -/
def memF : Nat → Nat := fun i => if i < 15 then 102 else 0

/-- A base `Str` (no inline buffer) that owns a heap block of 11 bytes while
holding only 2 content bytes: built by assigning 10 bytes and then 2. -/
def sHeap : Str := Str.set memAB 0 2 (Str.set memAB 0 10 Str.init)

/-! ## Indexing lemmas for the byte-buffer primitives -/

theorem getD_set (l : List Nat) (i j b : Nat) :
    (l.set i b).getD j 0 = if i = j ∧ i < l.length then b else l.getD j 0 := by
  induction l generalizing i j with
  | nil => simp
  | cons h t ih =>
    cases i with
    | zero =>
      cases j with
      | zero => simp
      | succ j' => simp
    | succ i' =>
      cases j with
      | zero => simp [List.set]
      | succ j' =>
        simp only [List.set, List.getD_cons_succ, ih i' j', List.length_cons]
        by_cases hij : i' = j' ∧ i' < t.length
        · rw [if_pos hij, if_pos (by omega)]
        · rw [if_neg hij, if_neg (by omega)]

theorem length_writeB (src : List Nat) (l : List Nat) (off : Nat) :
    (writeB l off src).length = l.length := by
  induction src generalizing l off with
  | nil => rfl
  | cons b rest ih => simp [writeB, ih, List.length_set]

theorem getD_writeB (src : List Nat) (l : List Nat) (off j : Nat) :
    (writeB l off src).getD j 0 =
      if off ≤ j ∧ j < off + src.length ∧ j < l.length then src.getD (j - off) 0
      else l.getD j 0 := by
  induction src generalizing l off with
  | nil =>
    show l.getD j 0 = _
    rw [if_neg (by simp only [List.length_nil]; omega)]
  | cons b rest ih =>
    show (writeB (l.set off b) (off + 1) rest).getD j 0 = _
    rw [ih, List.length_set, getD_set]
    by_cases h1 : off + 1 ≤ j ∧ j < off + 1 + rest.length ∧ j < l.length
    · rw [if_pos h1, if_pos (by simp; omega)]
      have hj : j - off = (j - (off + 1)) + 1 := by omega
      rw [hj, List.getD_cons_succ]
    · rw [if_neg h1]
      by_cases h2 : off = j ∧ off < l.length
      · rw [if_pos h2, if_pos (by simp; omega)]
        have hj : j - off = 0 := by omega
        rw [hj, List.getD_cons_zero]
      · rw [if_neg h2, if_neg (by simp; omega)]

theorem getD_mapRange (f : Nat → Nat) (n i : Nat) :
    ((List.range n).map f).getD i 0 = if i < n then f i else 0 := by
  by_cases h : i < n
  · rw [if_pos h, List.getD_eq_getD_get?, List.get?_map, List.get?_range h]
    rfl
  · rw [if_neg h, List.getD_eq_getD_get?, List.get?_map, List.get?_eq_none.mpr]
    rfl
    simpa using Nat.le_of_not_lt h

theorem length_readMem (mem : Nat → Nat) (a n : Nat) : (readMem mem a n).length = n := by
  simp [readMem]

theorem getD_readMem (mem : Nat → Nat) (a n i : Nat) :
    (readMem mem a n).getD i 0 = if i < n then mem (a + i) else 0 :=
  getD_mapRange _ n i

theorem length_readBuf (mem : Nat → Nat) (s : Str) (off n : Nat) :
    (s.readBuf mem off n).length = n := by
  simp [Str.readBuf]

theorem getD_readBuf (mem : Nat → Nat) (s : Str) (off n i : Nat) :
    (s.readBuf mem off n).getD i 0 = if i < n then s.bufGet mem (off + i) else 0 :=
  getD_mapRange _ n i

theorem mapRange_getD_self (l : List Nat) :
    (List.range l.length).map (fun i => l.getD i 0) = l := by
  apply List.ext_get?
  intro n
  by_cases h : n < l.length
  · rw [List.get?_map, List.get?_range h, List.get?_eq_get h]
    simp [List.getD_eq_getD_get?, List.get?_eq_get h, List.getElem?_eq_getElem h]
  · rw [List.get?_map, List.get?_eq_none.mpr (by simpa using Nat.le_of_not_lt h),
        List.get?_eq_none.mpr (by simpa using Nat.le_of_not_lt h)]
    rfl

theorem strncpyBytes_of_noNul (src : List Nat) (h : ∀ b ∈ src, b ≠ 0) :
    strncpyBytes src = src := by
  unfold strncpyBytes
  have hmap : ∀ i ∈ List.range src.length,
      (if 0 ∈ src.take i then 0 else src.getD i 0) = src.getD i 0 := by
    intro i _
    rw [if_neg]
    intro hmem
    exact h 0 (List.mem_of_mem_take hmem) rfl
  rw [List.map_congr_left hmap]
  exact mapRange_getD_self src

/-! ## Frame lemmas for the store primitive -/

theorem bwrite_loc (s : Str) (off : Nat) (src : List Nat) :
    (s.bwrite off src).loc = s.loc := by
  unfold Str.bwrite
  split
  · rfl
  · split <;> rfl

theorem bwrite_size (s : Str) (off : Nat) (src : List Nat) :
    (s.bwrite off src).size = s.size := by
  unfold Str.bwrite
  split
  · rfl
  · split <;> rfl

theorem bwrite_capacity (s : Str) (off : Nat) (src : List Nat) :
    (s.bwrite off src).capacity = s.capacity := by
  unfold Str.bwrite
  split
  · rfl
  · split <;> rfl

theorem bwrite_owned (s : Str) (off : Nat) (src : List Nat) :
    (s.bwrite off src).owned = s.owned := by
  unfold Str.bwrite
  split
  · rfl
  · split <;> rfl

theorem bwrite_localSize (s : Str) (off : Nat) (src : List Nat) :
    (s.bwrite off src).localSize = s.localSize := by
  unfold Str.bwrite
  split
  · rfl
  · split <;> rfl

theorem bwrite_live (s : Str) (off : Nat) (src : List Nat) :
    (s.bwrite off src).live = s.live := by
  unfold Str.bwrite
  split
  · rfl
  · split <;> rfl

theorem bwrite_localBytes_length (s : Str) (off : Nat) (src : List Nat) :
    (s.bwrite off src).localBytes.length = s.localBytes.length := by
  unfold Str.bwrite
  split
  · rfl
  · split <;> simp [length_writeB]

theorem bwrite_heapBytes_length (s : Str) (off : Nat) (src : List Nat) :
    (s.bwrite off src).heapBytes.length = s.heapBytes.length := by
  unfold Str.bwrite
  split
  · rfl
  · split <;> simp [length_writeB]

theorem bwrite_extent (s : Str) (off : Nat) (src : List Nat) :
    (s.bwrite off src).extent = s.extent := by
  unfold Str.extent
  rw [bwrite_loc]
  cases s.loc
  all_goals simp [bwrite_localBytes_length, bwrite_heapBytes_length]

theorem bufGet_bwrite (mem : Nat → Nat) (s : Str) (off : Nat) (src : List Nat) (j : Nat)
    (hloc : s.loc = Loc.localBuf ∨ s.loc = Loc.heap) :
    (s.bwrite off src).bufGet mem j =
      if off ≤ j ∧ j < off + src.length ∧ j < s.extent then src.getD (j - off) 0
      else s.bufGet mem j := by
  by_cases hsrc : src = []
  · subst hsrc
    rw [if_neg (by simp only [List.length_nil]; omega)]
    rfl
  · rcases hloc with h | h
    · simp only [Str.bwrite, if_neg hsrc, h]
      unfold Str.bufGet Str.extent
      simp only [h]
      exact getD_writeB src s.localBytes off j
    · simp only [Str.bwrite, if_neg hsrc, h]
      unfold Str.bufGet Str.extent
      simp only [h]
      exact getD_writeB src s.heapBytes off j

theorem bwrite_oob_false (s : Str) (off : Nat) (src : List Nat)
    (hloc : s.loc = Loc.localBuf ∨ s.loc = Loc.heap)
    (hfit : off + src.length ≤ s.extent) (h0 : s.oob = false) :
    (s.bwrite off src).oob = false := by
  by_cases hsrc : src = []
  · subst hsrc; simpa [Str.bwrite]
  · rcases hloc with h | h <;>
      simp only [Str.bwrite, if_neg hsrc, h] <;>
      simp only [h0, Bool.false_or, decide_eq_false_iff_not, Nat.not_lt] <;>
      simpa [Str.extent, h] using hfit

/-! ## Claim theorems -/

/-- C1 counterexample: on a 16-byte-inline instance already holding 10
bytes, `append_nogrow` of 6 more bytes does NOT succeed: because
`m_capacity` counts the terminator slot, the guard
`m_capacity < m_size + s.size() + 1` (16 < 17) fires and the call returns
the sentinel -1 having performed no write at all (the state is unchanged,
so there is no partial truncated write either).  This matches the
repository's own `test_append_nogrow`. -/
theorem append_nogrow_six_into_ten_fails :
    sAA.size = 10 ∧ sAA.capacity = 16 ∧
    Str.append_nogrow memAB 100 6 sAA = (sAA, -1) := by decide

/-- C2: `setf_nogrow` DOES grow: its body is a copy of `setf`, including the
`reserve_discard(len + 1)` call.  On a fresh `Str16` (capacity 16) with a
rendered length of 20, the capacity becomes 21, the data moves to a heap
block, and the call returns 20 instead of a negative sentinel. -/
theorem setf_nogrow_grows_bug :
    s16.capacity = 16 ∧ s16.loc = Loc.localBuf ∧
    (Str.setf_nogrow (List.replicate 20 120) s16).map
      (fun p => (p.1.capacity, p.1.loc, p.1.owned, p.2)) =
      some (21, Loc.heap, true, 20) := by decide

/-- C3: `setf` never updates `m_size` and never writes a terminator.  On a
fresh `Str16`, rendering the 2 bytes "42" returns 2 and writes the bytes,
but `size()` stays 0, `view()` is empty rather than "42", and the byte at
offset `size()` is the rendered byte 52 rather than the NUL terminator. -/
theorem setf_stale_size_bug :
    (Str.setf [52, 50] s16).map
      (fun p => (p.1.size, p.1.view memZ, p.1.bufGet memZ p.1.size, p.1.owned, p.2)) =
      some (0, [], 52, true, 2) := by decide

/-- C4: `appendf` breaks the size/capacity invariant and writes out of
bounds.  On a `Str16` holding 10 bytes with a rendered length of 10, the
guard `m_capacity < len + 1` (16 < 11) does not fire, so no growth happens;
`fmt::format_to_n(m_data + m_size, m_capacity, ...)` then writes past the
16-byte allocation (oob), and `m_size` becomes 20 > `m_capacity` = 16. -/
theorem appendf_overrun_bug :
    sAA.size = 10 ∧ sAA.capacity = 16 ∧ sAA.oob = false ∧
    (Str.appendf memAB (List.replicate 10 98) sAA).map
      (fun p => (p.1.size, p.1.capacity, p.1.oob, p.2)) =
      some (20, 16, true, 10) := by decide

/-- C5: `set` reads one byte past the end of the source view
(`memcpy(m_data, src.data(), src.size() + 1)`).  For the 2-byte view "ab"
over a memory whose next byte is 88, the copied-in "terminator" at offset
`size()` is 88, not NUL, and the resulting state differs from the one
produced by a memory that agrees on the whole 2-byte view but has 0 after
it — so the result depends on a byte outside the source range. -/
theorem set_reads_past_end_bug :
    (Str.set mem5 0 2 s16).view memZ = [97, 98] ∧
    (Str.set mem5 0 2 s16).bufGet memZ 2 = 88 ∧
    (Str.set mem5z 0 2 s16).bufGet memZ 2 = 0 ∧
    mem5 0 = mem5z 0 ∧ mem5 1 = mem5z 1 ∧
    Str.set mem5 0 2 s16 ≠ Str.set mem5z 0 2 s16 := by decide

/-- C6 counterexample: a `Str16` in the Reference state, assigned a 15-byte
string (15 < local capacity 16), ends up owned but HEAP-resident, because
`reserve_discard(16)` only picks the local buffer when
`new_capacity < m_local_size` (16 < 16 fails). -/
theorem set_short_not_inline_cex :
    s16.localSize = 16 ∧ sref.owned = false ∧
    (Str.set memF 0 15 sref).owned = true ∧
    (Str.set memF 0 15 sref).loc = Loc.heap := by decide

/-- C8: the 8-bit bit-field `m_local_size` truncates the declared size 256
to 0 (the header even documents 10 bits for it), so `clear()` on a `Str256`
takes the no-inline-buffer path: capacity 0, unowned, pointing at the
static empty buffer — instead of reverting to an owned inline state with
capacity 256.  The variants up to 128 behave as specified (shown for 16). -/
theorem clear_str256_bug :
    (Str.initLocal 256).map
      (fun s => (s.localSize, s.clear.capacity, s.clear.owned, s.clear.loc)) =
      some (0, 0, false, Loc.emptyBuf) ∧
    (Str.initLocal 16).map
      (fun s => (s.clear.capacity, s.clear.owned, s.clear.loc)) =
      some (16, true, Loc.localBuf) := by decide

/-- C10: `operator[](size_t i)` can never satisfy its own assertion.  The
parameter is unsigned, so for the C++ conversions in force the assertion
`-m_size < i && i < m_size` requires `2^64 - m_size < i` and `i < m_size`
at once, impossible for any 24-bit `m_size`; in particular the intended
negative index -1 (converted to `2^64 - 1`) fails fast rather than reading
the byte at `n - 1`, and so does every in-range nonnegative index. -/
theorem opIndex_never_succeeds (mem : Nat → Nat) (s : Str) (i : Nat)
    (h : s.size < 16777216) : Str.opIndex mem s i = none := by
  have hA : idxAssert s.size i = false := by
    unfold idxAssert
    rcases Nat.eq_zero_or_pos s.size with h0 | hpos
    · simp [h0]
    · have hm : (18446744073709551616 - s.size) % 18446744073709551616
          = 18446744073709551616 - s.size := Nat.mod_eq_of_lt (by omega)
      rw [hm]
      rcases Nat.lt_or_ge i s.size with hi | hi
      · have hni : ¬ (18446744073709551616 - s.size < i) := by omega
        simp [hni]
      · simp [Nat.not_lt.mpr hi]
  simp [Str.opIndex, hA]

/-- Witness for C10 at a concrete state and the index `(size_t)(-1)`. -/
theorem opIndex_never_succeeds_witness :
    sAA.size < 16777216 ∧ Str.opIndex memZ sAA 18446744073709551615 = none :=
  ⟨by decide, opIndex_never_succeeds memZ sAA 18446744073709551615 (by decide)⟩

/-- Auxiliary: `shrink_to_fit` is a no-op on an owned heap-resident state
whose capacity is already at most `size + 1`. -/
theorem shrink_noop_of_heap_small (mem : Nat → Nat) (t : Str)
    (h1 : t.owned = true) (h2 : t.loc = Loc.heap) (h3 : t.capacity ≤ t.size + 1) :
    t.shrink_to_fit mem = t := by
  have hg : ¬ (t.owned = false ∨ t.loc = Loc.localBuf) := by
    rintro (h | h)
    · rw [h1] at h; exact Bool.noConfusion h
    · rw [h2] at h; exact Loc.noConfusion h
  unfold Str.shrink_to_fit
  rw [if_neg hg, if_pos h3]

/-- C9: `shrink_to_fit()` on an owned heap-resident instance with
`capacity > size + 1` reduces the capacity to exactly `size + 1` while
preserving owner, residency, size and content; it is a no-op whenever the
instance is unowned (Reference, Empty) or inline-resident; and it is
idempotent. -/
theorem shrink_to_fit_spec (mem : Nat → Nat) (s : Str) (hwf : WF s) :
    ((s.owned = false ∨ s.loc = Loc.localBuf) → s.shrink_to_fit mem = s) ∧
    (s.owned = true → s.loc = Loc.heap → s.size + 1 < s.capacity →
      ((s.shrink_to_fit mem).capacity = s.size + 1 ∧
       (s.shrink_to_fit mem).owned = true ∧
       (s.shrink_to_fit mem).loc = Loc.heap ∧
       (s.shrink_to_fit mem).size = s.size ∧
       (s.shrink_to_fit mem).view mem = s.view mem)) ∧
    (s.shrink_to_fit mem).shrink_to_fit mem = s.shrink_to_fit mem := by
  obtain ⟨hsz, hcap24, hls, hlsb, hcl, hch, how⟩ := hwf
  refine ⟨?_, ?_, ?_⟩
  · intro h
    unfold Str.shrink_to_fit
    rw [if_pos h]
  · intro ho hl hc
    have hg1 : ¬ (s.owned = false ∨ s.loc = Loc.localBuf) := by
      rintro (h | h)
      · rw [ho] at h; exact Bool.noConfusion h
      · rw [h] at hl; exact Loc.noConfusion hl
    have hg2 : ¬ (s.capacity ≤ s.size + 1) := by omega
    have hmod : bf24 (s.size + 1) = s.size + 1 := Nat.mod_eq_of_lt (by omega)
    have hr : s.shrink_to_fit mem =
        { s with
          heapBytes := s.readBuf mem 0 (s.size + 1)
          loc := Loc.heap
          live := s.nextId :: freeCur s
          heapId := s.nextId
          nextId := s.nextId + 1
          capacity := bf24 (s.size + 1) } := by
      unfold Str.shrink_to_fit
      rw [if_neg hg1, if_neg hg2]
    rw [hr]
    refine ⟨hmod, ho, rfl, rfl, ?_⟩
    unfold Str.view Str.readBuf
    apply List.map_congr_left
    intro i hi
    rw [List.mem_range] at hi
    have hi2 : i < s.size := hi
    show (Str.readBuf mem s 0 (s.size + 1)).getD (0 + i) 0 = Str.bufGet mem s (0 + i)
    rw [getD_readBuf, if_pos (by omega)]
    simp
  · by_cases g1 : s.owned = false ∨ s.loc = Loc.localBuf
    · simp only [Str.shrink_to_fit, if_pos g1]
    · by_cases g2 : s.capacity ≤ s.size + 1
      · simp only [Str.shrink_to_fit, if_neg g1, if_pos g2]
      · have how2 : s.owned = true := by
          cases hb : s.owned
          · exact absurd (Or.inl hb) g1
          · rfl
        have hr : s.shrink_to_fit mem =
            { s with
              heapBytes := s.readBuf mem 0 (s.size + 1)
              loc := Loc.heap
              live := s.nextId :: freeCur s
              heapId := s.nextId
              nextId := s.nextId + 1
              capacity := bf24 (s.size + 1) } := by
          unfold Str.shrink_to_fit
          rw [if_neg g1, if_neg g2]
        rw [hr]
        apply shrink_noop_of_heap_small
        · exact how2
        · rfl
        · exact Nat.mod_le _ _

/-- Witness for C9 at a concrete owned heap state (a base `Str` holding 2
bytes in an 11-byte heap block). -/
theorem shrink_to_fit_spec_witness :
    (sHeap.owned = true ∧ sHeap.loc = Loc.heap ∧ sHeap.size + 1 < sHeap.capacity) ∧
    (((sHeap.owned = false ∨ sHeap.loc = Loc.localBuf) → sHeap.shrink_to_fit memZ = sHeap) ∧
     (sHeap.owned = true → sHeap.loc = Loc.heap → sHeap.size + 1 < sHeap.capacity →
       ((sHeap.shrink_to_fit memZ).capacity = sHeap.size + 1 ∧
        (sHeap.shrink_to_fit memZ).owned = true ∧
        (sHeap.shrink_to_fit memZ).loc = Loc.heap ∧
        (sHeap.shrink_to_fit memZ).size = sHeap.size ∧
        (sHeap.shrink_to_fit memZ).view memZ = sHeap.view memZ)) ∧
     (sHeap.shrink_to_fit memZ).shrink_to_fit memZ = sHeap.shrink_to_fit memZ) :=
  ⟨by decide, shrink_to_fit_spec memZ sHeap (by decide)⟩

/-! ## Frame lemmas for the size store and composite writes -/

theorem setSize_loc (t : Str) (n : Nat) : (t.setSize n).loc = t.loc := rfl

theorem setSize_size (t : Str) (n : Nat) : (t.setSize n).size = n := rfl

theorem setSize_capacity (t : Str) (n : Nat) : (t.setSize n).capacity = t.capacity := rfl

theorem setSize_owned (t : Str) (n : Nat) : (t.setSize n).owned = t.owned := rfl

theorem setSize_extent (t : Str) (n : Nat) : (t.setSize n).extent = t.extent := rfl

theorem bufGet_setSize (mem : Nat → Nat) (t : Str) (n j : Nat) :
    Str.bufGet mem (t.setSize n) j = t.bufGet mem j := rfl

theorem bufGet_appendWrites (mem : Nat → Nat) (t : Str) (off m : Nat) (src : List Nat)
    (j : Nat)
    (hloc : t.loc = Loc.localBuf ∨ t.loc = Loc.heap)
    (hm : m = off + src.length) (hfit : m + 1 ≤ t.extent) :
    Str.bufGet mem (((t.bwrite off src).setSize m).bwrite m [0]) j =
      if j = m then 0
      else if off ≤ j ∧ j < m then src.getD (j - off) 0
      else t.bufGet mem j := by
  have hloc1 : ((t.bwrite off src).setSize m).loc = Loc.localBuf ∨
      ((t.bwrite off src).setSize m).loc = Loc.heap := by
    rw [setSize_loc, bwrite_loc]
    exact hloc
  rw [bufGet_bwrite mem ((t.bwrite off src).setSize m) m [0] j hloc1]
  rw [setSize_extent, bwrite_extent]
  by_cases hj : j = m
  · subst hj
    rw [if_pos ⟨Nat.le_refl _, by simp only [List.length_cons, List.length_nil]; omega,
      by omega⟩]
    simp
  · rw [if_neg (by simp only [List.length_cons, List.length_nil]; omega)]
    rw [bufGet_setSize]
    rw [bufGet_bwrite mem t off src j hloc]
    rw [if_neg hj]
    by_cases hz : off ≤ j ∧ j < off + src.length
    · rw [if_pos ⟨hz.1, hz.2, by omega⟩, if_pos (by omega)]
    · rw [if_neg (by rintro ⟨h1, h2, h3⟩; exact hz ⟨h1, h2⟩), if_neg (by omega)]

/-- C6 (amended): `assign(b)` always leaves the instance owned.  The data
resides in the inline extension provided the instance was already owned and
inline-resident with capacity equal to the stored local capacity (e.g.
freshly constructed), or was unowned with `length(b) + 1` strictly below
the stored local capacity.  (It does not always reside inline: see the
counterexample for the unowned boundary case, and a heap-resident owned
instance with sufficient capacity keeps its heap buffer.) -/
theorem set_residency (mem : Nat → Nat) (addr len : Nat) (s : Str)
    (hlen : len < s.localSize) :
    (Str.set mem addr len s).owned = true ∧
    (s.owned = true → s.loc = Loc.localBuf → s.capacity = s.localSize →
      (Str.set mem addr len s).loc = Loc.localBuf) ∧
    (s.owned = false → len + 1 < s.localSize →
      (Str.set mem addr len s).loc = Loc.localBuf) := by
  refine ⟨rfl, ?_, ?_⟩
  · intro ho hl hcap
    show (Str.bwrite (s.reserve_discard (len + 1)) 0 (readMem mem addr (len + 1))).loc =
      Loc.localBuf
    rw [bwrite_loc]
    have hrd : s.reserve_discard (len + 1) = s := by
      unfold Str.reserve_discard
      rw [if_pos ⟨ho, by omega⟩]
    rw [hrd, hl]
  · intro ho hlen2
    show (Str.bwrite (s.reserve_discard (len + 1)) 0 (readMem mem addr (len + 1))).loc =
      Loc.localBuf
    rw [bwrite_loc]
    have hg : ¬ (s.owned = true ∧ len + 1 ≤ s.capacity) := by
      rintro ⟨h, _⟩
      rw [ho] at h
      exact Bool.noConfusion h
    unfold Str.reserve_discard
    rw [if_neg hg, if_pos hlen2]

/-- C1 (amended): on an owned instance, `append_nogrow` succeeds and copies
all bytes exactly when `size + length(s) + 1 <= capacity`, where `capacity`
counts the terminator slot (so a 16-byte-inline instance holding 10 bytes
accepts at most 5 more); on success the return value is the appended
length, the capacity and buffer residency are unchanged (never grows), the
content is the old content followed by the appended bytes (stated for
NUL-free sources, since the underlying `strncpy` NUL-pads after an embedded
NUL), and a terminator is left at offset `size`.  Otherwise it returns the
sentinel -1 and performs no write at all, leaving the state unchanged (not
a partial truncated write). -/
theorem append_nogrow_spec (mem : Nat → Nat) (addr len : Nat) (s : Str)
    (hwf : WF s) (ho : s.owned = true)
    (hnul : ∀ i, i < len → mem (addr + i) ≠ 0) :
    (s.capacity < s.size + len + 1 →
      Str.append_nogrow mem addr len s = (s, -1)) ∧
    (s.size + len + 1 ≤ s.capacity →
      ((Str.append_nogrow mem addr len s).2 = (len : Int) ∧
       (Str.append_nogrow mem addr len s).1.capacity = s.capacity ∧
       (Str.append_nogrow mem addr len s).1.loc = s.loc ∧
       (Str.append_nogrow mem addr len s).1.owned = true ∧
       (Str.append_nogrow mem addr len s).1.size = s.size + len ∧
       (Str.append_nogrow mem addr len s).1.view mem = s.view mem ++ readMem mem addr len ∧
       (Str.append_nogrow mem addr len s).1.bufGet mem (s.size + len) = 0)) := by
  obtain ⟨hsz, hcap24, hls, hlsb, hcl, hch, how⟩ := hwf
  constructor
  · intro h
    unfold Str.append_nogrow
    rw [if_pos h]
  · intro hfit
    have hg : ¬ (s.capacity < s.size + len + 1) := by omega
    have hloc : s.loc = Loc.localBuf ∨ s.loc = Loc.heap := how ho
    have hext : s.capacity ≤ s.extent := by
      rcases hloc with h | h
      · unfold Str.extent; rw [h]; exact hcl h
      · unfold Str.extent; rw [h]; exact hch h
    have hmin : min len (s.capacity - s.size - 1) = len := Nat.min_eq_left (by omega)
    have hsr : strncpyBytes (readMem mem addr len) = readMem mem addr len := by
      apply strncpyBytes_of_noNul
      intro b hb
      unfold readMem at hb
      rw [List.mem_map] at hb
      obtain ⟨i, hi, hbe⟩ := hb
      rw [List.mem_range] at hi
      rw [← hbe]
      exact hnul i hi
    have hb24 : bf24 (s.size + len) = s.size + len := Nat.mod_eq_of_lt (by omega)
    have hgets : ∀ j : Nat,
        Str.bufGet mem (((s.bwrite s.size (readMem mem addr len)).setSize
          (s.size + len)).bwrite (s.size + len) [0]) j =
          if j = s.size + len then 0
          else if s.size ≤ j ∧ j < s.size + len then (readMem mem addr len).getD (j - s.size) 0
          else s.bufGet mem j := by
      intro j
      exact bufGet_appendWrites mem s s.size (s.size + len) (readMem mem addr len) j hloc
        (by rw [length_readMem]) (by omega)
    unfold Str.append_nogrow
    rw [if_neg hg]
    simp only [hmin, hsr, bwrite_size, setSize_size, hb24, Str.bwrite1]
    refine ⟨trivial, ?_, ?_, ?_, ?_, ?_, ?_⟩
    · rw [bwrite_capacity, setSize_capacity, bwrite_capacity]
    · rw [bwrite_loc, setSize_loc, bwrite_loc]
    · rw [bwrite_owned, setSize_owned, bwrite_owned]
      exact ho
    · trivial
    · unfold Str.view Str.readBuf
      rw [bwrite_size, setSize_size]
      rw [List.range_add, List.map_append, List.map_map]
      congr 1
      · apply List.map_congr_left
        intro i hi
        rw [List.mem_range] at hi
        rw [hgets (0 + i)]
        rw [if_neg (by omega), if_neg (by omega)]
      · apply List.map_congr_left
        intro i hi
        rw [List.mem_range] at hi
        simp only [Function.comp]
        rw [hgets (0 + (s.size + i))]
        rw [if_neg (by omega), if_pos (by omega)]
        rw [getD_readMem]
        rw [if_pos (by omega)]
        congr 1
        omega
    · rw [hgets (s.size + len), if_pos rfl]

theorem reserve_grow_fields (mem : Nat → Nat) (nc : Nat) (t : Str)
    (hg : t.capacity < nc) (hlb : t.localSize ≤ t.localBytes.length) :
    (t.reserve mem nc).owned = true ∧
    (t.reserve mem nc).size = t.size ∧
    (t.reserve mem nc).localSize = t.localSize ∧
    ((t.reserve mem nc).loc = Loc.localBuf ∨ (t.reserve mem nc).loc = Loc.heap) ∧
    nc ≤ (t.reserve mem nc).extent := by
  unfold Str.reserve
  rw [if_neg (by omega)]
  by_cases hl2 : nc < t.localSize
  · rw [if_pos hl2]
    refine ⟨rfl, ?_, ?_, ?_, ?_⟩
    · show (Str.bwrite { t with loc := Loc.localBuf } 0 (t.readBuf mem 0 t.size ++ [0])).size =
        t.size
      rw [bwrite_size]
    · show (Str.bwrite { t with loc := Loc.localBuf } 0
        (t.readBuf mem 0 t.size ++ [0])).localSize = t.localSize
      rw [bwrite_localSize]
    · left
      show (Str.bwrite { t with loc := Loc.localBuf } 0 (t.readBuf mem 0 t.size ++ [0])).loc =
        Loc.localBuf
      rw [bwrite_loc]
    · show nc ≤
        (Str.bwrite { t with loc := Loc.localBuf } 0 (t.readBuf mem 0 t.size ++ [0])).extent
      rw [bwrite_extent]
      show nc ≤ t.localBytes.length
      omega
  · rw [if_neg hl2]
    refine ⟨rfl, rfl, rfl, Or.inr rfl, ?_⟩
    show nc ≤ (writeB (List.replicate nc junkByte) 0 (t.readBuf mem 0 t.size ++ [0])).length
    rw [length_writeB, List.length_replicate]

theorem reserve_grow_content (mem mem2 : Nat → Nat) (nc : Nat) (t : Str)
    (hg : t.capacity < nc) (hnc : t.size + 1 ≤ nc)
    (hlb : t.localSize ≤ t.localBytes.length) (j : Nat) (hj : j < t.size + 1) :
    Str.bufGet mem2 (t.reserve mem nc) j = (t.readBuf mem 0 t.size ++ [0]).getD j 0 := by
  have hlen : (t.readBuf mem 0 t.size ++ [0]).length = t.size + 1 := by
    rw [List.length_append, length_readBuf]
    rfl
  unfold Str.reserve
  rw [if_neg (by omega)]
  by_cases hl2 : nc < t.localSize
  · rw [if_pos hl2]
    show Str.bufGet mem2
      (Str.bwrite { t with loc := Loc.localBuf } 0 (t.readBuf mem 0 t.size ++ [0])) j = _
    rw [bufGet_bwrite mem2 _ 0 _ j (Or.inl rfl)]
    rw [if_pos ⟨Nat.zero_le _, by rw [Nat.zero_add, hlen]; omega,
      by show j < t.localBytes.length; omega⟩]
    simp
  · rw [if_neg hl2]
    show (writeB (List.replicate nc junkByte) 0 (t.readBuf mem 0 t.size ++ [0])).getD j 0 = _
    rw [getD_writeB]
    rw [if_pos ⟨Nat.zero_le _, by rw [Nat.zero_add, hlen]; omega,
      by rw [List.length_replicate]; omega⟩]
    simp

/-- C7: after `set_ref(b)` the instance is unowned and points at the
external bytes without copying, any previously owned heap block having
been released (it is no longer live); a subsequent `append(c)` makes it
owned, returns `length(c)`, stores the bytes in a fresh internal buffer
(inline extension or heap), and for EVERY external memory `mem2` the
resulting view is the `b` bytes followed by the `c` bytes as captured at
call time — so mutating the original `b` afterwards cannot affect the
string. -/
theorem ref_then_append_independent (mem mem2 : Nat → Nat) (ba bl ca cl : Nat) (s : Str)
    (hwf : WF s) (hb : bl + cl + 1 < 16777216) :
    (Str.set_ref ba bl s).owned = false ∧
    (Str.set_ref ba bl s).loc = Loc.ext ba ∧
    (Str.set_ref ba bl s).size = bl ∧
    (s.owned = true → s.loc = Loc.heap → s.heapId ∉ (Str.set_ref ba bl s).live) ∧
    (Str.append mem ca cl (Str.set_ref ba bl s)).2 = (cl : Int) ∧
    (Str.append mem ca cl (Str.set_ref ba bl s)).1.owned = true ∧
    (Str.append mem ca cl (Str.set_ref ba bl s)).1.size = bl + cl ∧
    ((Str.append mem ca cl (Str.set_ref ba bl s)).1.loc = Loc.localBuf ∨
     (Str.append mem ca cl (Str.set_ref ba bl s)).1.loc = Loc.heap) ∧
    (Str.append mem ca cl (Str.set_ref ba bl s)).1.view mem2 =
      readMem mem ba bl ++ readMem mem ca cl := by
  obtain ⟨hsz, hcap24, hls, hlsb, hclw, hchw, how⟩ := hwf
  have hbl : bf24 bl = bl := Nat.mod_eq_of_lt (by omega)
  have hbc : bf24 (bl + cl) = bl + cl := Nat.mod_eq_of_lt (by omega)
  have hS1sz : (Str.set_ref ba bl s).size = bl := hbl
  have hS1cap : (Str.set_ref ba bl s).capacity = bl := hbl
  have hlb1 : (Str.set_ref ba bl s).localSize ≤ (Str.set_ref ba bl s).localBytes.length := hlsb
  obtain ⟨hRo, hRsz, hRls, hRloc, hRext⟩ :=
    reserve_grow_fields mem (bl + cl + 1) (Str.set_ref ba bl s)
      (by rw [hS1cap]; omega) hlb1
  rw [hS1sz] at hRsz
  have hcont : ∀ j, j < bl + 1 →
      Str.bufGet mem2 ((Str.set_ref ba bl s).reserve mem (bl + cl + 1)) j =
        ((Str.set_ref ba bl s).readBuf mem 0 bl ++ [0]).getD j 0 := by
    intro j hj
    have h2 := reserve_grow_content mem mem2 (bl + cl + 1) (Str.set_ref ba bl s)
      (by rw [hS1cap]; omega) (by rw [hS1sz]; omega) hlb1 j (by rw [hS1sz]; omega)
    rwa [hS1sz] at h2
  have hgets : ∀ j : Nat,
      Str.bufGet mem2 (((((Str.set_ref ba bl s).reserve mem (bl + cl + 1)).bwrite bl
          (readMem mem ca cl)).setSize (bl + cl)).bwrite (bl + cl) [0]) j =
        if j = bl + cl then 0
        else if bl ≤ j ∧ j < bl + cl then (readMem mem ca cl).getD (j - bl) 0
        else Str.bufGet mem2 ((Str.set_ref ba bl s).reserve mem (bl + cl + 1)) j := by
    intro j
    exact bufGet_appendWrites mem2 ((Str.set_ref ba bl s).reserve mem (bl + cl + 1))
      bl (bl + cl) (readMem mem ca cl) j hRloc (by rw [length_readMem]) (by omega)
  refine ⟨rfl, rfl, hbl, ?_, ?_, ?_, ?_, ?_, ?_⟩
  · intro ho hl
    show s.heapId ∉ freeIfOwnedHeap s
    rw [freeIfOwnedHeap, if_pos ⟨ho, by rw [hl]; intro h; exact Loc.noConfusion h⟩]
    rw [freeCur]
    intro hmem
    rw [List.mem_filter] at hmem
    simp at hmem
  · simp only [Str.append]
  · simp only [Str.append, hS1sz, Str.bwrite1, bwrite_owned, setSize_owned]
    exact hRo
  · simp only [Str.append, hS1sz, Str.bwrite1, bwrite_size, setSize_size, hRsz, hbc]
  · simp only [Str.append, hS1sz, Str.bwrite1, bwrite_size, setSize_size, hRsz, hbc,
      bwrite_loc, setSize_loc]
    exact hRloc
  · simp only [Str.append, hS1sz, Str.bwrite1, bwrite_size, setSize_size, hRsz, hbc]
    unfold Str.view Str.readBuf
    rw [bwrite_size, setSize_size]
    rw [List.range_add, List.map_append, List.map_map]
    congr 1
    · apply List.map_congr_left
      intro i hi
      rw [List.mem_range] at hi
      rw [hgets (0 + i)]
      rw [if_neg (by omega), if_neg (by omega)]
      rw [hcont (0 + i) (by omega)]
      rw [List.getD_append _ _ 0 _ (by rw [length_readBuf]; omega)]
      rw [getD_readBuf]
      rw [if_pos (by omega)]
      show mem (ba + (0 + (0 + i))) = mem (ba + i)
      congr 1
      omega
    · apply List.map_congr_left
      intro i hi
      rw [List.mem_range] at hi
      simp only [Function.comp]
      rw [hgets (0 + (bl + i))]
      rw [if_neg (by omega), if_pos (by omega)]
      rw [getD_readMem]
      rw [if_pos (by omega)]
      congr 1
      omega

/-- Witness for C1 at a `Str16` holding 10 bytes, appending 5 NUL-free
bytes (the largest append that fits). -/
theorem append_nogrow_spec_witness :
    (sAA.capacity < sAA.size + 5 + 1 →
      Str.append_nogrow memAB 100 5 sAA = (sAA, -1)) ∧
    (sAA.size + 5 + 1 ≤ sAA.capacity →
      ((Str.append_nogrow memAB 100 5 sAA).2 = (5 : Int) ∧
       (Str.append_nogrow memAB 100 5 sAA).1.capacity = sAA.capacity ∧
       (Str.append_nogrow memAB 100 5 sAA).1.loc = sAA.loc ∧
       (Str.append_nogrow memAB 100 5 sAA).1.owned = true ∧
       (Str.append_nogrow memAB 100 5 sAA).1.size = sAA.size + 5 ∧
       (Str.append_nogrow memAB 100 5 sAA).1.view memAB =
         sAA.view memAB ++ readMem memAB 100 5 ∧
       (Str.append_nogrow memAB 100 5 sAA).1.bufGet memAB (sAA.size + 5) = 0)) :=
  append_nogrow_spec memAB 100 5 sAA (by decide) (by decide) (by decide)

/-- Witness for C6 at a `Str16` in the Reference state assigned 10 bytes
(10 + 1 < 16, so the result is inline). -/
theorem set_residency_witness :
    (Str.set memF 0 10 sref).owned = true ∧
    (sref.owned = true → sref.loc = Loc.localBuf → sref.capacity = sref.localSize →
      (Str.set memF 0 10 sref).loc = Loc.localBuf) ∧
    (sref.owned = false → 10 + 1 < sref.localSize →
      (Str.set memF 0 10 sref).loc = Loc.localBuf) :=
  set_residency memF 0 10 sref (by decide)

/-- Witness for C7: a base `Str` owning an 11-byte heap block is pointed at
3 external bytes and then 6 bytes are appended; the view under a different
memory (`memZ`) still equals the captured bytes. -/
theorem ref_then_append_independent_witness :
    (Str.set_ref 0 3 sHeap).owned = false ∧
    (Str.set_ref 0 3 sHeap).loc = Loc.ext 0 ∧
    (Str.set_ref 0 3 sHeap).size = 3 ∧
    (sHeap.owned = true → sHeap.loc = Loc.heap →
      sHeap.heapId ∉ (Str.set_ref 0 3 sHeap).live) ∧
    (Str.append memAB 100 6 (Str.set_ref 0 3 sHeap)).2 = (6 : Int) ∧
    (Str.append memAB 100 6 (Str.set_ref 0 3 sHeap)).1.owned = true ∧
    (Str.append memAB 100 6 (Str.set_ref 0 3 sHeap)).1.size = 3 + 6 ∧
    ((Str.append memAB 100 6 (Str.set_ref 0 3 sHeap)).1.loc = Loc.localBuf ∨
     (Str.append memAB 100 6 (Str.set_ref 0 3 sHeap)).1.loc = Loc.heap) ∧
    (Str.append memAB 100 6 (Str.set_ref 0 3 sHeap)).1.view memZ =
      readMem memAB 0 3 ++ readMem memAB 100 6 :=
  ref_then_append_independent memAB memZ 0 3 100 6 sHeap (by decide) (by decide)
